import Mathlib

/-!
Verification development for the anndata h5ad format-adaptation layer
(`src/anndata/_io/h5ad.py`).

The module is shallowly embedded: dense matrices are lists of rows of
integers, compressed sparse matrices keep a per-line list of
(position, value) pairs (the flattening of which is exactly the
`data`/`indices` component arrays of the scipy layout), and the hdf5
file is an association list from full path keys to nodes.
-/

namespace Anndata

/-! ## Chunk planner

Modelled from the spec: `idx_chunks_along_axis` (anndata `_io/utils.py`,
imported by `h5ad.py` but not part of the source under review) produces,
for an axis of extent `n` and a chunk size `c`, the finite ordered
sequence of windows of `c` consecutive positions (the final window is
smaller), covering `[0, n)` exactly, each window paired with the full
range of the orthogonal axis.  A window is modelled as a
(start, length) pair along the chunked axis; the chunk size is passed
as `k+1` so that the recursion terminates structurally. -/

def idxChunksAux (k : Nat) : Nat → Nat → List (Nat × Nat)
  | _, 0 => []
  | start, n + 1 =>
      (start, min (k + 1) (n + 1)) :: idxChunksAux k (start + (k + 1)) (n + 1 - (k + 1))

/-- Modelled from the spec: the window sequence of
`idx_chunks_along_axis` for extent `n` and chunk size `c`
(spec section 4.1; fails for `c = 0`, modelled as the empty sequence,
which no claim exercises). -/
def idx_chunks_along_axis (n c : Nat) : List (Nat × Nat) :=
  match c with
  | 0 => []
  | k + 1 => idxChunksAux k 0 n

/-! ## Dense and compressed-sparse matrices -/

/-- A dense 2D array, row-major: `rows` lists the rows, each of which
should have length `ncols` (tracked by `DenseMat.WF`). -/
structure DenseMat where
  ncols : Nat
  rows : List (List Int)
deriving DecidableEq

def DenseMat.WF (D : DenseMat) : Prop :=
  ∀ r ∈ D.rows, r.length = D.ncols

instance (D : DenseMat) : Decidable D.WF := by
  unfold DenseMat.WF; infer_instance

/-- Row-compressed (CSR) sparse matrix: one entry list per row, each
entry a (column index, value) pair in increasing column order.  The
scipy `data`/`indices` arrays are the concatenation of these lists and
`indptr` their running lengths. -/
structure CSRMat where
  ncols : Nat
  rows : List (List (Nat × Int))
deriving DecidableEq

/-- Column-compressed (CSC) sparse matrix: one entry list per column,
each entry a (row index, value) pair in increasing row order. -/
structure CSCMat where
  nrows : Nat
  cols : List (List (Nat × Int))
deriving DecidableEq

/-- The flat `data` component array of a CSR matrix (values in
row-major order, as scipy stores them). -/
def CSRMat.data (m : CSRMat) : List Int :=
  (m.rows.map (fun es => es.map (fun e => e.2))).flatten

/-- The flat `data` component array of a CSC matrix (values in
column-major order). -/
def CSCMat.data (m : CSCMat) : List Int :=
  (m.cols.map (fun es => es.map (fun e => e.2))).flatten

/-- The nonzero entries of one dense line, paired with their positions
starting at `j`: the compressed encoding of a single row (CSR) or
column (CSC). -/
def rowNZ : Nat → List Int → List (Nat × Int)
  | _, [] => []
  | j, x :: xs => if x = 0 then rowNZ (j + 1) xs else (j, x) :: rowNZ (j + 1) xs

/-- Expansion of one compressed line back to dense (`scipy .toarray()`
for a single row/column): produce `n` values for positions
`j, j+1, ...`, consuming the position-sorted entry list. -/
def expandRow : Nat → Nat → List (Nat × Int) → List Int
  | _, 0, _ => []
  | j, n + 1, [] => 0 :: expandRow (j + 1) n []
  | j, n + 1, (i, v) :: rest =>
      if i = j then v :: expandRow (j + 1) n rest
      else 0 :: expandRow (j + 1) n ((i, v) :: rest)

/-- Model of `sparse.csr_matrix(dense)`: compress each row, keeping only the
nonzero entries, in their original order. -/
def csr_matrix_of (D : DenseMat) : CSRMat :=
  ⟨D.ncols, D.rows.map (rowNZ 0)⟩

/-- Transpose of a row-major `rows` list whose rows have length `n`. -/
def transpose (n : Nat) (rows : List (List Int)) : List (List Int) :=
  (List.range n).map (fun j => rows.map (fun r => r.getD j 0))

/-- Model of `sparse.csc_matrix(dense)`: compress each column (the rows of the
transpose), keeping only the nonzero entries, in their original
order. -/
def csc_matrix_of (D : DenseMat) : CSCMat :=
  ⟨D.rows.length, (transpose D.ncols D.rows).map (rowNZ 0)⟩

/-- Model of `dataset[:, a:a+len]`: a column slice of a row-major dense array. -/
def colSlice (a len : Nat) (rows : List (List Int)) : List (List Int) :=
  rows.map (fun r => (r.drop a).take len)

/-- Model of `sparse.vstack(ms, format="csr")`: stack row-compressed blocks
vertically by concatenating their row lists. -/
def sparse_vstack (ms : List CSRMat) : CSRMat :=
  ⟨(ms.map (fun m => m.ncols)).headD 0, (ms.map (fun m => m.rows)).flatten⟩

/-- Model of `sparse.hstack(ms, format="csc")`: stack column-compressed blocks
horizontally by concatenating their column lists. -/
def sparse_hstack (ms : List CSCMat) : CSCMat :=
  ⟨(ms.map (fun m => m.nrows)).headD 0, (ms.map (fun m => m.cols)).flatten⟩

/-! ## `read_dense_as_csr` / `read_dense_as_csc` / `read_dense_as_sparse`
(source lines 331-357) -/

/-- Model of `read_dense_as_csr(dataset, axis_chunk)`: read the dense dataset in
windows along axis 0 (the row axis), convert each window slice
`dataset[idx]` to CSR, and vertically stack the sub-matrices. -/
def read_dense_as_csr (D : DenseMat) (axis_chunk : Nat) : CSRMat :=
  sparse_vstack
    ((idx_chunks_along_axis D.rows.length axis_chunk).map
      (fun w => csr_matrix_of ⟨D.ncols, (D.rows.drop w.1).take w.2⟩))

/-- Model of `read_dense_as_csc(dataset, axis_chunk)`: read the dense dataset in
windows along axis 1 (the column axis), convert each window slice
`dataset[idx]` to CSC, and horizontally stack the sub-matrices. -/
def read_dense_as_csc (D : DenseMat) (axis_chunk : Nat) : CSCMat :=
  sparse_hstack
    ((idx_chunks_along_axis D.ncols axis_chunk).map
      (fun w => csc_matrix_of ⟨w.2, colSlice w.1 w.2 D.rows⟩))

/-! ## The chunked write loop of `write_sparse_as_dense`
(source lines 122-125), at the level of the dataset contents -/

/-- Model of `dset[a:a+len] = block`: replace `block.length` consecutive lines of
`d` starting at position `a`. -/
def setRowsAt (a : Nat) (block : List α) (d : List α) : List α :=
  d.take a ++ block ++ d.drop (a + block.length)

/-- An all-zero row-major dense array (`create_dataset` with the default
fill value). -/
def zerosMat (nr nc : Nat) : List (List Int) :=
  List.replicate nr (List.replicate nc 0)

/-- The loop `for idx in idx_chunks_along_axis(shape, compressed_axis, c):
dset[idx] = value[idx].toarray()`, tracked along the compressed axis:
`lines` is the per-line entry list of the sparse value (rows for CSR,
columns for CSC), `width` the extent of the orthogonal axis, and each
window's slice of `lines` is expanded to dense and assigned. -/
def writeChunkLoop (width : Nat) (lines : List (List (Nat × Int))) (c : Nat) :
    List (List Int) :=
  (idx_chunks_along_axis lines.length c).foldl
    (fun d w => setRowsAt w.1 (((lines.drop w.1).take w.2).map (expandRow 0 width)) d)
    (zerosMat lines.length width)

/-- The dense dataset contents produced by `write_sparse_as_dense` for a
row-compressed value: `compressed_axis = 0`, so the chunk windows run
along the row axis, with the source's fixed chunk size 1000. -/
def write_sparse_as_dense_csr_data (m : CSRMat) : List (List Int) :=
  writeChunkLoop m.ncols m.rows 1000

/-- The dense dataset contents produced by `write_sparse_as_dense` for a
column-compressed value: `compressed_axis = 1`, so the chunk windows run
along the column axis (the dataset state is tracked as its column list
during the loop, and transposed back to row-major at the end), with the
source's fixed chunk size 1000. -/
def write_sparse_as_dense_csc_data (m : CSCMat) : List (List Int) :=
  transpose m.nrows (writeChunkLoop m.nrows m.cols 1000)

/-! ## Temporary-key derivation (source line 119)

`re.sub(r"(.*)(\w(?!.*/))", r"\1_\2", key.rstrip("/"))`: with the greedy
`.*`, the single match marks the last word character that has no `/`
anywhere after it, and the replacement inserts `_` in front of it
(e.g. `raw/X` becomes `raw/_X`, `X` becomes `_X`); if no character
qualifies the key is returned unchanged.  `\w` is modelled as
ASCII alphanumeric or underscore, exact for the keys this module
writes. -/

def isWordChar (ch : Char) : Bool := ch.isAlphanum || ch == '_'

/-- Insert `_` before the last word character that is not followed by a
`/` anywhere later; `none` when no character qualifies (the regex does
not match). -/
def markLastWordChar : List Char → Option (List Char)
  | [] => none
  | c :: cs =>
      match markLastWordChar cs with
      | some cs2 => some (c :: cs2)
      | none =>
          if isWordChar c && !(cs.contains '/') then some ('_' :: c :: cs) else none

/-- Model of `key.rstrip("/")`. -/
def rstripSlash (s : List Char) : List Char :=
  (s.reverse.dropWhile (fun ch => ch == '/')).reverse

/-- The temporary sibling key used by `write_sparse_as_dense` when it
must not overwrite its own source in place. -/
def tempKey (s : String) : String :=
  let base := rstripSlash s.data
  match markLastWordChar base with
  | some r => ⟨r⟩
  | none => ⟨base⟩

/-! ## The hdf5 store and the `write_sparse_as_dense` protocol
(source lines 109-129)

The store is an association list from full path keys to nodes; `h5py`'s
`key in f`, `del f[key]`, `f.create_dataset(key, ...)` and the
hard-link assignment `f[real_key] = f[key]` become lookup, removal and
insertion on that list.  The converted value is a row-compressed
matrix, either in memory (`scipy.sparse.spmatrix`) or backed by a file
(`h5py.Group`/`h5py.Dataset`/`SparseDataset`, which carry a
`.file.filename`); the column-compressed case differs only in the
chunking axis and is covered by `write_sparse_as_dense_csc_data`. -/

inductive HNode where
  | dense (rows : List (List Int))
  | sparseEnc (m : CSRMat)
deriving DecidableEq

def alookup {α : Type} : List (String × α) → String → Option α
  | [], _ => none
  | (k, v) :: es, q => if k = q then some v else alookup es q

def aremove {α : Type} : List (String × α) → String → List (String × α)
  | [], _ => []
  | (k, v) :: es, q => if k = q then aremove es q else (k, v) :: aremove es q

structure H5File where
  filename : String
  entries : List (String × HNode)
deriving DecidableEq

def H5File.get? (f : H5File) (k : String) : Option HNode :=
  alookup f.entries k

def H5File.del (f : H5File) (k : String) : H5File :=
  ⟨f.filename, aremove f.entries k⟩

def H5File.set (f : H5File) (k : String) (v : HNode) : H5File :=
  ⟨f.filename, aremove f.entries k ++ [(k, v)]⟩

/-- The `value` argument of `write_sparse_as_dense`: an in-memory sparse
matrix, or a store-backed one carrying the filename of its file. -/
inductive SrcVal where
  | mem (m : CSRMat)
  | backed (fname : String) (m : CSRMat)
deriving DecidableEq

def SrcVal.mat : SrcVal → CSRMat
  | .mem m => m
  | .backed _ m => m

/-- Model of `isinstance(value, (h5py.Group, h5py.Dataset, SparseDataset)) and
value.file.filename == f.file.filename`. -/
def SrcVal.isBackedIn : SrcVal → String → Bool
  | .mem _, _ => false
  | .backed fn _, target => fn == target

/-- The key actually written to: the temporary sibling key when the
destination exists and the source lives in the same file, the real key
otherwise. -/
def wsadWriteKey (f : H5File) (key : String) (v : SrcVal) : String :=
  if (f.get? key).isSome then
    (if v.isBackedIn f.filename then tempKey key else key)
  else key

/-- The `real_key` flag: set exactly when a temporary key is in use. -/
def wsadRealKey (f : H5File) (key : String) (v : SrcVal) : Option String :=
  if (f.get? key).isSome && v.isBackedIn f.filename then some key else none

/-- The store just before `create_dataset`: the destination is wiped up
front (`del f[key]`) exactly when it exists and the source is not
aliased with it. -/
def wsadPreState (f : H5File) (key : String) (v : SrcVal) : H5File :=
  if (f.get? key).isSome then
    (if v.isBackedIn f.filename then f else f.del key)
  else f

/-- The dataset contents after the first `j` chunk assignments of the
conversion loop (`create_dataset` first fills the dataset with
zeros). -/
def wsadAfterChunks (v : SrcVal) (j : Nat) : List (List Int) :=
  ((idx_chunks_along_axis v.mat.rows.length 1000).take j).foldl
    (fun d w =>
      setRowsAt w.1 (((v.mat.rows.drop w.1).take w.2).map (expandRow 0 v.mat.ncols)) d)
    (zerosMat v.mat.rows.length v.mat.ncols)

/-- Every observable store state from `create_dataset` through the last
chunk assignment — i.e. before the delete-and-rename swap begins.
State `j` has the first `j` chunks written at the chosen write key. -/
def wsadPreSwapStates (f : H5File) (key : String) (v : SrcVal) : List H5File :=
  (List.range ((idx_chunks_along_axis v.mat.rows.length 1000).length + 1)).map
    (fun j => (wsadPreState f key v).set (wsadWriteKey f key v)
      (HNode.dense (wsadAfterChunks v j)))

/-- Model of `write_sparse_as_dense(f, key, value)`: final store state.  After
the conversion loop, if a temporary key was used, the real key is
deleted, the temporary node is linked at the real key
(`f[real_key] = f[key]`), and the temporary key is deleted. -/
def write_sparse_as_dense (f : H5File) (key : String) (v : SrcVal) : H5File :=
  let wk := wsadWriteKey f key v
  let done := (wsadPreState f key v).set wk
    (HNode.dense (wsadAfterChunks v (idx_chunks_along_axis v.mat.rows.length 1000).length))
  match wsadRealKey f key v with
  | none => done
  | some rk =>
      let d1 := done.del rk
      let d2 := d1.set rk ((d1.get? wk).getD (HNode.dense []))
      d2.del wk

/-- The complete converted data: the full dense expansion of the
source. -/
def wsadFullData (v : SrcVal) : List (List Int) :=
  v.mat.rows.map (expandRow 0 v.mat.ncols)

/-! ## `write_h5ad` (source lines 36-106) -/

inductive WError where
  | notImplErr
  | valueErr
deriving DecidableEq

inductive WAct where
  | setRootDefaults
  | writeSparseDense (key : String)
  | writeElemAct (key : String)
deriving DecidableEq

/-- Model of `as_dense[as_dense.index("raw.X")] = "raw/X"`: replace the first
occurrence only. -/
def replaceFirst : List String → String → String → List String
  | [], _, _ => []
  | x :: xs, a, b => if x = a then b :: xs else x :: replaceFirst xs a b

/-- Lines 57-59: the legacy dotted spelling `raw.X` is rewritten to
`raw/X` (first occurrence) before validation. -/
def normalizeAsDense (l : List String) : List String :=
  if ("raw.X") ∈ l then replaceFirst l ("raw.X") ("raw/X") else l

/-- The fields of the `AnnData` container that `write_h5ad` inspects. -/
structure AdataW where
  hasRaw : Bool
  isbacked : Bool
  hasX : Bool
  xIsSparse : Bool
  rawXIsSparse : Bool
  isView : Bool
  sameFile : Bool
deriving DecidableEq

/-- Model of `write_h5ad(filepath, adata, force_dense=..., as_dense=...)`:
validation happens before the file is opened, so an error result means
no store I/O at all; a successful run is modelled as the ordered list
of store operations performed inside the `with h5py.File(...)` block.
`xIsSparse`/`rawXIsSparse` model the `isinstance(..., (sparse.spmatrix,
SparseDataset))` tests, `hasX` models `adata._has_X()`, `sameFile`
models `Path(adata.filename) == Path(filepath)`. -/
def write_h5ad (a : AdataW) (force_dense : Option Bool) (as_dense₀ : List String) :
    Except WError (List WAct) :=
  let as_dense₁ :=
    if force_dense = some true then
      (if a.hasRaw then [("X"), ("raw/X")] else [("X")])
    else as_dense₀
  let as_dense := normalizeAsDense as_dense₁
  if ¬ (∀ t ∈ as_dense, t = ("X") ∨ t = ("raw/X")) then
    .error .notImplErr
  else if ("raw/X") ∈ as_dense ∧ a.hasRaw = false then
    .error .valueErr
  else
    .ok
      ([WAct.setRootDefaults]
        ++ (if a.isbacked = false ∨ a.hasX then
              (if ("X") ∈ as_dense ∧ a.xIsSparse then
                [WAct.writeSparseDense ("X")]
              else if ¬ (a.isbacked ∧ a.sameFile) ∨ a.isView then
                [WAct.writeElemAct ("X")]
              else [])
            else [])
        ++ (if ("raw/X") ∈ as_dense ∧ a.rawXIsSparse then
              [WAct.writeSparseDense ("raw/X"), WAct.writeElemAct ("raw/var"),
                WAct.writeElemAct ("raw/varm")]
            else if a.hasRaw then [WAct.writeElemAct ("raw")] else [])
        ++ [WAct.writeElemAct ("obs"), WAct.writeElemAct ("var"),
            WAct.writeElemAct ("obsm"), WAct.writeElemAct ("varm"),
            WAct.writeElemAct ("obsp"), WAct.writeElemAct ("varp"),
            WAct.writeElemAct ("layers"), WAct.writeElemAct ("uns")])

/-- Lines 77-79: `f.attrs.setdefault(k, v)` on the root group — the
attribute is written only when absent. -/
def attrsSetdefault (attrs : List (String × String)) (k v : String) :
    List (String × String) :=
  if (alookup attrs k).isSome then attrs else attrs ++ [(k, v)]

/-- The root attributes after a write pass:
`setdefault("encoding-type", "anndata")` then
`setdefault("encoding-version", "0.1.0")`. -/
def write_h5ad_encoding_attrs (attrs : List (String × String)) :
    List (String × String) :=
  attrsSetdefault (attrsSetdefault attrs ("encoding-type") ("anndata"))
    ("encoding-version") ("0.1.0")

/-! ## `read_h5ad` validation (source lines 197-224) and
`read_dense_as_sparse` dispatch (source lines 331-340) -/

/-- The requested target sparse class `as_sparse_fmt`: `csr_matrix`,
`csc_matrix`, or any other `sparse.spmatrix` subclass. -/
inductive SpFmt where
  | csr
  | csc
  | different
deriving DecidableEq

inductive RError where
  | notImplFmt
  | notImplTok
  | valueErrFmt
deriving DecidableEq

/-- An element of the `as_sparse` argument: a string, or a tuple of two
strings (the legacy `("raw", "X")` spelling). -/
inductive RTok where
  | s (v : String)
  | pr (a b : String)
deriving DecidableEq

/-- Lines 212-218: each `as_sparse` element is normalized in order —
`("raw", "X")` and `"raw.X"` become `"raw/X"`; anything else that is
not `"raw/X"` or `"X"` raises `NotImplementedError`. -/
def normSparseTok (t : RTok) : Except RError String :=
  if t = RTok.pr ("raw") ("X") ∨ t = RTok.s ("raw.X") then .ok ("raw/X")
  else
    match t with
    | .s v => if v = ("raw/X") ∨ v = ("X") then .ok v else .error .notImplTok
    | .pr _ _ => .error .notImplTok

def normalizeAsSparse : List RTok → Except RError (List String)
  | [] => .ok []
  | t :: rest => do
      let v ← normSparseTok t
      let vs ← normalizeAsSparse rest
      pure (v :: vs)

inductive RAct where
  | openFileRead
deriving DecidableEq

/-- The eager entry point `read_h5ad(filename, backed=None, as_sparse=...,
as_sparse_fmt=...)` up to the point the store is opened: the format
check (line 204) and the token normalization (lines 212-218) both run
before `h5py.File(filename, "r")`, so an error result means no store
I/O at all. -/
def read_h5ad (fmt : SpFmt) (as_sparse : List RTok) : Except RError (List RAct) :=
  if fmt ≠ SpFmt.csr ∧ fmt ≠ SpFmt.csc then .error .notImplFmt
  else
    match normalizeAsSparse as_sparse with
    | .error e => .error e
    | .ok _ => .ok [RAct.openFileRead]

/-- Model of `read_dense_as_sparse(dataset, sparse_format, axis_chunk)`: dispatch
on the requested layout; any class other than `csr_matrix`/`csc_matrix`
raises `ValueError`. -/
def read_dense_as_sparse (D : DenseMat) (sparse_format : SpFmt) (axis_chunk : Nat) :
    Except RError (Sum CSRMat CSCMat) :=
  match sparse_format with
  | .csr => .ok (Sum.inl (read_dense_as_csr D axis_chunk))
  | .csc => .ok (Sum.inr (read_dense_as_csc D axis_chunk))
  | .different => .error .valueErrFmt

/-! ## `read_dataset` (source lines 304-328)

The dataset value is classified by its on-disk dtype, mirroring the
branch structure of the source (with `H5PY_V3`, variable-length utf-8
string datasets are read through `.asstr()`; fixed-length byte-string
datasets — `np.string_`, the pre-variable-length encoding — are cast
with `.astype(str)`; compound record datasets go through
`_from_fixed_length_strings`/`_decode_structured_array`, external
helpers modelled as producing the decoded records). -/

inductive DsetVal where
  | utf8Arr (xs : List String)
  | bytesArr (xs : List String)
  | intArr (xs : List Int)
  | intScalar (x : Int)
  | compoundArr (recs : List (List String))
deriving DecidableEq

inductive ReadVal where
  | str (s : String)
  | strArr (xs : List String)
  | int (x : Int)
  | intArr (xs : List Int)
  | records (recs : List (List String))
deriving DecidableEq

/-- Model of `read_dataset(dataset)`: a fixed-length (`np.string_`) string
dataset of length 1 is unwrapped to its single element (backwards
compatibility: old files stored scalar strings as one-element 1-d
arrays); a 0-d numeric dataset is unwrapped by `value[()]`. -/
def read_dataset : DsetVal → ReadVal
  | .utf8Arr xs => .strArr xs
  | .bytesArr xs => if xs.length = 1 then .str (xs.headD ("")) else .strArr xs
  | .intArr xs => .intArr xs
  | .intScalar x => .int x
  | .compoundArr recs => .records recs

/-! ## Window lemmas -/

theorem idxChunksAux_bounds (k : Nat) :
    ∀ (n s : Nat) (w : Nat × Nat), w ∈ idxChunksAux k s n →
      s ≤ w.1 ∧ w.1 + w.2 ≤ s + n := by
  intro n
  induction n using Nat.strong_induction_on with
  | _ n IH =>
    match n with
    | 0 =>
      intro s w hw
      simp [idxChunksAux] at hw
    | m + 1 =>
      intro s w hw
      rw [idxChunksAux, List.mem_cons] at hw
      rcases hw with rfl | hw
      · refine ⟨Nat.le_refl s, ?_⟩
        have : min (k + 1) (m + 1) ≤ m + 1 := Nat.min_le_right _ _
        omega
      · by_cases hk : k + 1 ≤ m + 1
        · have hlt : m + 1 - (k + 1) < m + 1 := by omega
          have h2 := IH (m + 1 - (k + 1)) hlt (s + (k + 1)) w hw
          omega
        · have h0 : m + 1 - (k + 1) = 0 := by omega
          rw [h0] at hw
          simp [idxChunksAux] at hw

theorem idxChunksAux_flatten_slices {α : Type} (k : Nat) :
    ∀ (n s : Nat) (all : List α), all.length = s + n →
      ((idxChunksAux k s n).map (fun w => (all.drop w.1).take w.2)).flatten
        = all.drop s := by
  intro n
  induction n using Nat.strong_induction_on with
  | _ n IH =>
    match n with
    | 0 =>
      intro s all hlen
      rw [idxChunksAux]
      simp only [List.map_nil, List.flatten_nil]
      exact (List.drop_eq_nil_of_le (by omega)).symm
    | m + 1 =>
      intro s all hlen
      rw [idxChunksAux]
      simp only [List.map_cons, List.flatten_cons]
      by_cases hk : k + 1 ≤ m + 1
      · have hlt : m + 1 - (k + 1) < m + 1 := by omega
        rw [IH (m + 1 - (k + 1)) hlt (s + (k + 1)) all (by omega)]
        have hmin : min (k + 1) (m + 1) = k + 1 := by omega
        rw [hmin, ← List.drop_drop, List.take_append_drop]
      · have h0 : m + 1 - (k + 1) = 0 := by omega
        rw [h0, idxChunksAux]
        simp only [List.map_nil, List.flatten_nil, List.append_nil]
        have hmin : min (k + 1) (m + 1) = m + 1 := by omega
        rw [hmin]
        exact List.take_of_length_le (by rw [List.length_drop]; omega)

theorem setRowsAt_length {α : Type} (a : Nat) (b d : List α)
    (h : a + b.length ≤ d.length) : (setRowsAt a b d).length = d.length := by
  rw [setRowsAt]
  simp only [List.length_append, List.length_take, List.length_drop]
  omega

theorem take_setRowsAt {α : Type} (a : Nat) (b d : List α)
    (h : a ≤ d.length) : (setRowsAt a b d).take (a + b.length) = d.take a ++ b := by
  rw [setRowsAt, List.take_append_eq_append_take]
  have h1 : (d.take a ++ b).length = a + b.length := by
    rw [List.length_append, List.length_take]
    omega
  rw [h1, List.take_of_length_le (le_of_eq h1)]
  have h2 : a + b.length - (a + b.length) = 0 := by omega
  rw [h2, List.take_zero, List.append_nil]

theorem idxChunksAux_foldl_set {β : Type} (ex : List (Nat × Int) → List β) (k : Nat) :
    ∀ (n s : Nat) (all : List (List (Nat × Int))) (d : List (List β)),
      d.length = s + n → all.length = s + n →
      (idxChunksAux k s n).foldl
          (fun d w => setRowsAt w.1 (((all.drop w.1).take w.2).map ex) d) d
        = d.take s ++ (all.drop s).map ex := by
  intro n
  induction n using Nat.strong_induction_on with
  | _ n IH =>
    match n with
    | 0 =>
      intro s all d hd hall
      rw [idxChunksAux]
      simp only [List.foldl_nil]
      rw [List.drop_eq_nil_of_le (by omega), List.map_nil, List.append_nil,
        List.take_of_length_le (by omega)]
    | m + 1 =>
      intro s all d hd hall
      rw [idxChunksAux]
      simp only [List.foldl_cons]
      have hslice : ((all.drop s).take (min (k + 1) (m + 1))).length
          = min (k + 1) (m + 1) := by
        rw [List.length_take, List.length_drop]
        omega
      by_cases hk : k + 1 ≤ m + 1
      · have hmin : min (k + 1) (m + 1) = k + 1 := by omega
        have hlt : m + 1 - (k + 1) < m + 1 := by omega
        have hblock : (((all.drop s).take (min (k + 1) (m + 1))).map ex).length
            = k + 1 := by
          rw [List.length_map, hslice, hmin]
        have hd2 : (setRowsAt s (((all.drop s).take (min (k + 1) (m + 1))).map ex)
            d).length = s + (m + 1) := by
          rw [setRowsAt_length]
          · exact hd
          · omega
        rw [IH (m + 1 - (k + 1)) hlt (s + (k + 1)) all _ (by omega) (by omega)]
        have htake := take_setRowsAt s
          (((all.drop s).take (min (k + 1) (m + 1))).map ex) d (by omega)
        rw [hblock] at htake
        rw [htake]
        have hsplit : (all.drop s).map ex
            = ((all.drop s).take (k + 1)).map ex
              ++ (all.drop (s + (k + 1))).map ex := by
          rw [← List.drop_drop, ← List.map_append, List.take_append_drop]
        rw [hsplit, hmin, List.append_assoc]
      · have h0 : m + 1 - (k + 1) = 0 := by omega
        have hmin : min (k + 1) (m + 1) = m + 1 := by omega
        rw [h0, idxChunksAux]
        simp only [List.foldl_nil]
        rw [setRowsAt, hmin]
        have hfull : (all.drop s).take (m + 1) = all.drop s :=
          List.take_of_length_le (by rw [List.length_drop]; omega)
        rw [hfull]
        have hblock : ((all.drop s).map ex).length = m + 1 := by
          rw [List.length_map, List.length_drop]
          omega
        have hnil : d.drop (s + ((all.drop s).map ex).length) = [] := by
          rw [hblock]
          exact List.drop_eq_nil_of_le (by omega)
        rw [hnil, List.append_nil]

theorem idx_chunks_ne_nil (n c : Nat) (hn : 0 < n) (hc : 0 < c) :
    idx_chunks_along_axis n c ≠ [] := by
  match c, hc with
  | k + 1, _ =>
    match n, hn with
    | m + 1, _ =>
      rw [idx_chunks_along_axis, idxChunksAux]
      exact List.cons_ne_nil _ _

theorem map_headD_const {α : Type} (l : List α) (g : α → Nat) (v : Nat)
    (hne : l ≠ []) (h : ∀ x ∈ l, g x = v) : (l.map g).headD 0 = v := by
  match l, hne with
  | x :: xs, _ =>
    simp only [List.map_cons, List.headD_cons]
    exact h x (List.mem_cons_self x xs)

/-! ## Compress/expand round trip for a single line -/

theorem rowNZ_pos_ge (r : List Int) : ∀ (j : Nat) (p : Nat × Int),
    p ∈ rowNZ j r → j ≤ p.1 := by
  induction r with
  | nil =>
    intro j p hp
    simp [rowNZ] at hp
  | cons x xs IHr =>
    intro j p hp
    rw [rowNZ] at hp
    by_cases hx : x = 0
    · rw [if_pos hx] at hp
      exact Nat.le_of_succ_le (IHr (j + 1) p hp)
    · rw [if_neg hx, List.mem_cons] at hp
      rcases hp with rfl | hp
      · exact Nat.le_refl j
      · exact Nat.le_of_succ_le (IHr (j + 1) p hp)

theorem expandRow_rowNZ (r : List Int) : ∀ (j : Nat),
    expandRow j r.length (rowNZ j r) = r := by
  induction r with
  | nil =>
    intro j
    rfl
  | cons x xs IHr =>
    intro j
    rw [List.length_cons, rowNZ]
    by_cases hx : x = 0
    · rw [if_pos hx]
      rcases hnz : rowNZ (j + 1) xs with _ | ⟨⟨i, v⟩, rest⟩
      · rw [expandRow, ← hnz, IHr (j + 1), hx]
      · have hij : j + 1 ≤ i := by
          have := rowNZ_pos_ge xs (j + 1) (i, v) (by rw [hnz]; exact List.mem_cons_self _ _)
          exact this
        rw [expandRow, if_neg (by omega), ← hnz, IHr (j + 1), hx]
    · rw [if_neg hx, expandRow, if_pos rfl, IHr (j + 1)]

theorem rowNZ_map_snd (r : List Int) : ∀ (j : Nat),
    (rowNZ j r).map (fun e => e.2) = r.filter (fun x => !(x == 0)) := by
  induction r with
  | nil =>
    intro j
    rfl
  | cons x xs IHr =>
    intro j
    rw [rowNZ]
    by_cases hx : x = 0
    · rw [if_pos hx, IHr (j + 1), List.filter_cons]
      simp [hx]
    · rw [if_neg hx, List.map_cons, IHr (j + 1), List.filter_cons]
      simp [hx]

/-! ## Transpose lemmas -/

theorem transpose_length (n : Nat) (rows : List (List Int)) :
    (transpose n rows).length = n := by
  rw [transpose, List.length_map, List.length_range]

theorem transpose_mem_length (n : Nat) (rows : List (List Int)) :
    ∀ col ∈ transpose n rows, col.length = rows.length := by
  intro col hcol
  rw [transpose] at hcol
  rcases List.mem_map.mp hcol with ⟨j, _, rfl⟩
  rw [List.length_map]

theorem range_map_getD (r : List Int) :
    (List.range r.length).map (fun j => r.getD j 0) = r := by
  apply List.ext_getElem
  · rw [List.length_map, List.length_range]
  · intro i h1 h2
    rw [List.getElem_map, List.getElem_range]
    rw [List.getD_eq_getElem?_getD, List.getElem?_eq_getElem h2]
    rfl

theorem transpose_transpose (n : Nat) (rows : List (List Int))
    (h : ∀ r ∈ rows, r.length = n) :
    transpose rows.length (transpose n rows) = rows := by
  apply List.ext_getElem
  · rw [transpose_length]
  · intro i h1 h2
    simp only [transpose, List.getElem_map, List.getElem_range, List.map_map]
    have hrow : ∀ j ∈ List.range n,
        ((fun col => col.getD i 0) ∘ fun j => rows.map (fun r => r.getD j 0)) j
          = rows[i].getD j 0 := by
      intro j _
      simp only [Function.comp_apply]
      rw [List.getD_eq_getElem?_getD, List.getElem?_map,
        List.getElem?_eq_getElem h2]
      rfl
    rw [List.map_congr_left hrow]
    have hlen : rows[i].length = n := h rows[i] (List.getElem_mem h2)
    rw [← hlen, range_map_getD]

/-! ## Chunk-invariance of the chunked conversions -/

theorem range_drop_take (nc a len : Nat) (h : a + len ≤ nc) :
    ((List.range nc).drop a).take len = (List.range len).map (fun j => a + j) := by
  have hsum : nc = a + (nc - a) := by omega
  rw [hsum, List.range_add]
  rw [List.drop_left' (List.length_range a), ← List.map_take, List.take_range]
  have hmin : min len (nc - a) = len := by omega
  rw [hmin]

theorem transpose_colSlice (nc a len : Nat) (rows : List (List Int))
    (h : a + len ≤ nc) :
    transpose len (colSlice a len rows) = ((transpose nc rows).drop a).take len := by
  rw [transpose, transpose, ← List.map_drop, ← List.map_take, range_drop_take nc a len h,
    List.map_map]
  apply List.map_congr_left
  intro j hj
  have hjlt : j < len := List.mem_range.mp hj
  simp only [Function.comp_apply, colSlice, List.map_map]
  apply List.map_congr_left
  intro r _
  simp only [Function.comp_apply]
  rw [List.getD_eq_getElem?_getD, List.getD_eq_getElem?_getD,
    List.getElem?_take_of_lt hjlt, List.getElem?_drop]

theorem writeChunkLoop_eq (width : Nat) (lines : List (List (Nat × Int))) (c : Nat)
    (hc : 0 < c) : writeChunkLoop width lines c = lines.map (expandRow 0 width) := by
  match c, hc with
  | k + 1, _ =>
    rw [writeChunkLoop, idx_chunks_along_axis]
    rw [idxChunksAux_foldl_set (expandRow 0 width) k lines.length 0 lines
      (zerosMat lines.length width) (by rw [zerosMat, List.length_replicate]; omega)
      (by omega)]
    rw [List.take_zero, List.drop_zero, List.nil_append]

theorem read_dense_as_csr_eq (D : DenseMat) (c : Nat) (hr : 0 < D.rows.length)
    (hc : 0 < c) : read_dense_as_csr D c = csr_matrix_of D := by
  match c, hc with
  | k + 1, _ =>
    rw [read_dense_as_csr, sparse_vstack, csr_matrix_of, idx_chunks_along_axis]
    have hne : idxChunksAux k 0 D.rows.length ≠ [] := by
      have := idx_chunks_ne_nil D.rows.length (k + 1) hr (Nat.succ_pos k)
      rw [idx_chunks_along_axis] at this
      exact this
    congr 1
    · rw [List.map_map]
      apply map_headD_const _ _ _ hne
      intro w _
      rfl
    · rw [List.map_map]
      have heq : ∀ w ∈ idxChunksAux k 0 D.rows.length,
          ((fun m => m.rows) ∘ fun w =>
            csr_matrix_of ⟨D.ncols, (D.rows.drop w.1).take w.2⟩) w
          = (fun w : Nat × Nat => ((D.rows.drop w.1).take w.2).map (rowNZ 0)) w := by
        intro w _
        rfl
      rw [List.map_congr_left heq]
      have hmaps : (idxChunksAux k 0 D.rows.length).map
            (fun w : Nat × Nat => ((D.rows.drop w.1).take w.2).map (rowNZ 0))
          = ((idxChunksAux k 0 D.rows.length).map
            (fun w : Nat × Nat => (D.rows.drop w.1).take w.2)).map (List.map (rowNZ 0)) := by
        rw [List.map_map]
        rfl
      rw [hmaps, ← List.map_flatten,
        idxChunksAux_flatten_slices k D.rows.length 0 D.rows (by omega), List.drop_zero]

theorem read_dense_as_csc_eq (D : DenseMat) (c : Nat) (hcpos : 0 < D.ncols)
    (hc : 0 < c) : read_dense_as_csc D c = csc_matrix_of D := by
  match c, hc with
  | k + 1, _ =>
    rw [read_dense_as_csc, sparse_hstack, csc_matrix_of, idx_chunks_along_axis]
    have hne : idxChunksAux k 0 D.ncols ≠ [] := by
      have := idx_chunks_ne_nil D.ncols (k + 1) hcpos (Nat.succ_pos k)
      rw [idx_chunks_along_axis] at this
      exact this
    congr 1
    · rw [List.map_map]
      apply map_headD_const _ _ _ hne
      intro w _
      simp only [Function.comp_apply, csc_matrix_of, colSlice]
      rw [List.length_map]
    · rw [List.map_map]
      have heq : ∀ w ∈ idxChunksAux k 0 D.ncols,
          ((fun m => m.cols) ∘ fun w =>
            csc_matrix_of ⟨w.2, colSlice w.1 w.2 D.rows⟩) w
          = (fun w : Nat × Nat =>
              (((transpose D.ncols D.rows).drop w.1).take w.2).map (rowNZ 0)) w := by
        intro w hw
        have hb := idxChunksAux_bounds k D.ncols 0 w hw
        simp only [Function.comp_apply, csc_matrix_of]
        rw [transpose_colSlice D.ncols w.1 w.2 D.rows (by omega)]
      rw [List.map_congr_left heq]
      have hmaps : (idxChunksAux k 0 D.ncols).map
            (fun w : Nat × Nat =>
              (((transpose D.ncols D.rows).drop w.1).take w.2).map (rowNZ 0))
          = ((idxChunksAux k 0 D.ncols).map
            (fun w : Nat × Nat => ((transpose D.ncols D.rows).drop w.1).take w.2)).map
              (List.map (rowNZ 0)) := by
        rw [List.map_map]
        rfl
      rw [hmaps, ← List.map_flatten,
        idxChunksAux_flatten_slices k D.ncols 0 (transpose D.ncols D.rows)
          (by rw [transpose_length]; omega), List.drop_zero]

/-! ## Store lemmas -/

theorem alookup_aremove_self {α : Type} (l : List (String × α)) (q : String) :
    alookup (aremove l q) q = none := by
  induction l with
  | nil => rfl
  | cons e es IH =>
    rw [aremove]
    by_cases he : e.1 = q
    · rw [if_pos he]
      exact IH
    · rw [if_neg he, alookup, if_neg he]
      exact IH

theorem alookup_aremove_ne {α : Type} (l : List (String × α)) (q q' : String)
    (h : q' ≠ q) : alookup (aremove l q) q' = alookup l q' := by
  induction l with
  | nil => rfl
  | cons e es IH =>
    rw [aremove, alookup]
    by_cases he : e.1 = q
    · rw [if_pos he, if_neg (by rw [he]; exact fun hq => h hq.symm), IH]
    · rw [if_neg he, alookup]
      by_cases he' : e.1 = q'
      · rw [if_pos he', if_pos he']
      · rw [if_neg he', if_neg he', IH]

theorem alookup_append_of_none {α : Type} (l1 l2 : List (String × α)) (q : String)
    (h : alookup l1 q = none) : alookup (l1 ++ l2) q = alookup l2 q := by
  induction l1 with
  | nil => rfl
  | cons e es IH =>
    rw [alookup] at h
    by_cases he : e.1 = q
    · rw [if_pos he] at h
      exact absurd h (by simp)
    · rw [if_neg he] at h
      rw [List.cons_append, alookup, if_neg he]
      exact IH h

theorem get?_set_self (f : H5File) (k : String) (v : HNode) :
    (f.set k v).get? k = some v := by
  rw [H5File.set, H5File.get?]
  rw [alookup_append_of_none _ _ _ (alookup_aremove_self f.entries k)]
  rw [alookup, if_pos rfl]

theorem alookup_append_of_some {α : Type} (l1 l2 : List (String × α)) (q : String)
    (v : α) (h : alookup l1 q = some v) : alookup (l1 ++ l2) q = some v := by
  induction l1 with
  | nil => exact absurd h (by simp [alookup])
  | cons e es IH =>
    rw [alookup] at h
    rw [List.cons_append, alookup]
    by_cases he : e.1 = q
    · rw [if_pos he] at h
      rw [if_pos he]
      exact h
    · rw [if_neg he] at h
      rw [if_neg he]
      exact IH h

theorem get?_set_ne (f : H5File) (k : String) (v : HNode) (q : String) (h : q ≠ k) :
    (f.set k v).get? q = f.get? q := by
  rw [H5File.set, H5File.get?, H5File.get?]
  have hrem := alookup_aremove_ne f.entries k q h
  cases h' : alookup (aremove f.entries k) q with
  | none =>
    rw [alookup_append_of_none _ _ _ h', ← hrem, h']
    simp only [alookup]
    rw [if_neg (fun he : k = q => h he.symm)]
  | some w =>
    rw [alookup_append_of_some _ _ _ _ h', ← hrem, h']

theorem get?_del_self (f : H5File) (k : String) : (f.del k).get? k = none := by
  rw [H5File.del, H5File.get?]
  exact alookup_aremove_self f.entries k

theorem get?_del_ne (f : H5File) (k q : String) (h : q ≠ k) :
    (f.del k).get? q = f.get? q := by
  rw [H5File.del, H5File.get?, H5File.get?]
  exact alookup_aremove_ne f.entries k q h

/-! ## C1: dense → sparse → dense round trip -/

/-- C1: for every (nonempty) dense 2D array `D`, both supported
compressed layouts, and every chunk size `c ≥ 1` (in particular every
`c` from 1 to `max(shape)`), converting `D` to sparse with that layout
and chunk size via `read_dense_as_csr`/`read_dense_as_csc` and then
expanding the result back to dense via the `write_sparse_as_dense`
conversion loop yields exactly the rows of `D`. -/
theorem sparse_dense_roundtrip (D : DenseMat) (c : Nat) (hwf : D.WF)
    (hr : 0 < D.rows.length) (hc0 : 0 < D.ncols) (hc : 1 ≤ c) :
    write_sparse_as_dense_csr_data (read_dense_as_csr D c) = D.rows ∧
    write_sparse_as_dense_csc_data (read_dense_as_csc D c) = D.rows := by
  constructor
  · rw [read_dense_as_csr_eq D c hr (by omega), write_sparse_as_dense_csr_data,
      writeChunkLoop_eq _ _ _ (by omega), csr_matrix_of]
    rw [List.map_map]
    conv_rhs => rw [← List.map_id D.rows]
    apply List.map_congr_left
    intro r hmem
    simp only [Function.comp_apply, id]
    have hlen := hwf r hmem
    rw [← hlen]
    exact expandRow_rowNZ r 0
  · rw [read_dense_as_csc_eq D c hc0 (by omega), write_sparse_as_dense_csc_data,
      writeChunkLoop_eq _ _ _ (by omega), csc_matrix_of]
    rw [List.map_map]
    have hcols : ∀ col ∈ transpose D.ncols D.rows,
        ((expandRow 0 D.rows.length) ∘ (rowNZ 0)) col = col := by
      intro col hcol
      simp only [Function.comp_apply]
      have hlen := transpose_mem_length D.ncols D.rows col hcol
      rw [← hlen]
      exact expandRow_rowNZ col 0
    calc transpose D.rows.length
          ((transpose D.ncols D.rows).map ((expandRow 0 D.rows.length) ∘ (rowNZ 0)))
        = transpose D.rows.length (transpose D.ncols D.rows) := by
          rw [List.map_congr_left hcols, List.map_id']
      _ = D.rows := transpose_transpose D.ncols D.rows hwf

/-- Witness for C1 at `D = [[1, 0], [2, 3]]`, chunk size 1. -/
theorem sparse_dense_roundtrip_witness :
    DenseMat.WF ⟨2, [[1, 0], [2, 3]]⟩ ∧ 0 < 2 ∧ 1 ≤ 1 ∧
    (write_sparse_as_dense_csr_data (read_dense_as_csr ⟨2, [[1, 0], [2, 3]]⟩ 1)
        = [[1, 0], [2, 3]] ∧
      write_sparse_as_dense_csc_data (read_dense_as_csc ⟨2, [[1, 0], [2, 3]]⟩ 1)
        = [[1, 0], [2, 3]]) :=
  ⟨by decide, by decide, by decide,
    sparse_dense_roundtrip ⟨2, [[1, 0], [2, 3]]⟩ 1 (by decide) (by decide)
      (by decide) (by decide)⟩

/-! ## C5: chunking axis, stacking direction, element order -/

/-- C5: reading a dense-stored matrix as sparse chunks along the axis
being assembled (`read_dense_as_csr` slices along rows and vertically
stacks, `read_dense_as_csc` slices along columns and horizontally
stacks), and the concatenation reproduces the unchunked conversion
exactly; in particular the `data` component array lists the nonzero
values in original row-major (CSR) / column-major (CSC) order, with no
sorting or deduplication. -/
theorem read_chunk_axis_and_order (D : DenseMat) (c : Nat)
    (hr : 0 < D.rows.length) (hc0 : 0 < D.ncols) (hc : 1 ≤ c) :
    read_dense_as_csr D c = csr_matrix_of D ∧
    (read_dense_as_csr D c).data
      = (D.rows.map (fun r => r.filter (fun x => !(x == 0)))).flatten ∧
    read_dense_as_csc D c = csc_matrix_of D ∧
    (read_dense_as_csc D c).data
      = ((transpose D.ncols D.rows).map
          (fun col => col.filter (fun x => !(x == 0)))).flatten := by
  have h1 := read_dense_as_csr_eq D c hr (by omega)
  have h3 := read_dense_as_csc_eq D c hc0 (by omega)
  refine ⟨h1, ?_, h3, ?_⟩
  · rw [h1, csr_matrix_of, CSRMat.data]
    rw [List.map_map]
    congr 1
    apply List.map_congr_left
    intro r _
    exact rowNZ_map_snd r 0
  · rw [h3, csc_matrix_of, CSCMat.data]
    rw [List.map_map]
    congr 1
    apply List.map_congr_left
    intro col _
    exact rowNZ_map_snd col 0

/-- Witness for C5 at `D = [[1, 0], [0, 2], [3, 4]]`, chunk size 2. -/
theorem read_chunk_axis_and_order_witness :
    0 < 3 ∧ 0 < 2 ∧ 1 ≤ 2 ∧
    (read_dense_as_csr ⟨2, [[1, 0], [0, 2], [3, 4]]⟩ 2
        = csr_matrix_of ⟨2, [[1, 0], [0, 2], [3, 4]]⟩ ∧
      (read_dense_as_csr ⟨2, [[1, 0], [0, 2], [3, 4]]⟩ 2).data
        = ([[1, 0], [0, 2], [3, 4]].map
            (fun r => r.filter (fun x => !(x == 0)))).flatten ∧
      read_dense_as_csc ⟨2, [[1, 0], [0, 2], [3, 4]]⟩ 2
        = csc_matrix_of ⟨2, [[1, 0], [0, 2], [3, 4]]⟩ ∧
      (read_dense_as_csc ⟨2, [[1, 0], [0, 2], [3, 4]]⟩ 2).data
        = ((transpose 2 [[1, 0], [0, 2], [3, 4]]).map
            (fun col => col.filter (fun x => !(x == 0)))).flatten) :=
  ⟨by decide, by decide, by decide,
    read_chunk_axis_and_order ⟨2, [[1, 0], [0, 2], [3, 4]]⟩ 2 (by decide)
      (by decide) (by decide)⟩

/-! ## C2/C3: the in-place overwrite protocol of `write_sparse_as_dense` -/

theorem wsadAfterChunks_full (v : SrcVal) :
    wsadAfterChunks v (idx_chunks_along_axis v.mat.rows.length 1000).length
      = wsadFullData v := by
  rw [wsadAfterChunks, List.take_length, wsadFullData]
  exact writeChunkLoop_eq v.mat.ncols v.mat.rows 1000 (by omega)

theorem wsad_aliased_facts (f : H5File) (key : String) (v : SrcVal)
    (hex : (f.get? key).isSome = true) (hal : v.isBackedIn f.filename = true) :
    wsadWriteKey f key v = tempKey key ∧ wsadRealKey f key v = some key ∧
    wsadPreState f key v = f := by
  refine ⟨?_, ?_, ?_⟩
  · rw [wsadWriteKey, if_pos hex, if_pos hal]
  · rw [wsadRealKey, if_pos (by rw [hex, hal]; rfl)]
  · rw [wsadPreState, if_pos hex, if_pos hal]

/-- C2: when the destination key exists and the source value lives in
the same underlying file, every observable store state before the
delete-and-rename swap leaves the real key bound to exactly its
original node (so a failure anywhere before the swap leaves the
original untouched, and no partial mixture is ever addressable at the
real key), and after the swap completes the real key holds the
complete converted data. -/
theorem inplace_overwrite_invariant (f : H5File) (key : String) (v : SrcVal)
    (hex : (f.get? key).isSome = true) (hal : v.isBackedIn f.filename = true)
    (hne : tempKey key ≠ key) :
    (∀ s ∈ wsadPreSwapStates f key v, s.get? key = f.get? key) ∧
    (write_sparse_as_dense f key v).get? key
      = some (HNode.dense (wsadFullData v)) := by
  obtain ⟨hwk, hrk, hpre⟩ := wsad_aliased_facts f key v hex hal
  constructor
  · intro s hs
    rw [wsadPreSwapStates] at hs
    rcases List.mem_map.mp hs with ⟨j, _, rfl⟩
    rw [hwk, hpre]
    exact get?_set_ne f (tempKey key) _ key (fun h => hne h.symm)
  · rw [write_sparse_as_dense, hrk, hwk, hpre]
    simp only
    rw [get?_del_ne _ _ _ (fun h => hne h.symm), get?_set_self,
      get?_del_ne _ _ _ hne, get?_set_self, Option.getD_some, wsadAfterChunks_full]

/-- Witness for C2: a file containing a sparse-encoded `X` overwritten
in place from a source backed by the same file. -/
theorem inplace_overwrite_invariant_witness :
    ((H5File.mk ("f.h5") [(("X"), HNode.sparseEnc ⟨1, [[(0, 5)]]⟩)]).get?
        ("X")).isSome = true ∧
    (SrcVal.backed ("f.h5") ⟨1, [[(0, 5)]]⟩).isBackedIn ("f.h5") = true ∧
    tempKey ("X") ≠ ("X") ∧
    ((∀ s ∈ wsadPreSwapStates ⟨("f.h5"), [(("X"), HNode.sparseEnc ⟨1, [[(0, 5)]]⟩)]⟩
        ("X") (SrcVal.backed ("f.h5") ⟨1, [[(0, 5)]]⟩),
        s.get? ("X")
          = (H5File.mk ("f.h5") [(("X"), HNode.sparseEnc ⟨1, [[(0, 5)]]⟩)]).get? ("X")) ∧
      (write_sparse_as_dense ⟨("f.h5"), [(("X"), HNode.sparseEnc ⟨1, [[(0, 5)]]⟩)]⟩
          ("X") (SrcVal.backed ("f.h5") ⟨1, [[(0, 5)]]⟩)).get? ("X")
        = some (HNode.dense (wsadFullData (SrcVal.backed ("f.h5") ⟨1, [[(0, 5)]]⟩)))) :=
  ⟨by decide, by decide, by decide,
    inplace_overwrite_invariant ⟨("f.h5"), [(("X"), HNode.sparseEnc ⟨1, [[(0, 5)]]⟩)]⟩
      ("X") (SrcVal.backed ("f.h5") ⟨1, [[(0, 5)]]⟩) (by decide) (by decide) (by decide)⟩

/-- C3: target selection of `write_sparse_as_dense`.  (a) If the
destination key exists and the source is aliased with the destination
file, the conversion is written under the temporary sibling key
`tempKey key`, and after it completes the real key is deleted and the
temporary key moved onto it (so the final store has the converted data
at the real key and nothing at the temporary key).  (b) If the
destination exists but is not aliased, the existing node is deleted up
front and the real key is written directly, with no temporary key.
(c) If the destination does not exist, the real key is written
directly.  The temporary key is derived deterministically by marking
the final path segment: `X ↦ _X` and `raw/X ↦ raw/_X` (the two keys
this module ever passes). -/
theorem write_target_selection (f : H5File) (key : String) (v : SrcVal)
    (hne : tempKey key ≠ key) :
    ((f.get? key).isSome = true → v.isBackedIn f.filename = true →
      wsadWriteKey f key v = tempKey key ∧
      (write_sparse_as_dense f key v).get? key
        = some (HNode.dense (wsadFullData v)) ∧
      (write_sparse_as_dense f key v).get? (tempKey key) = none) ∧
    ((f.get? key).isSome = true → v.isBackedIn f.filename = false →
      wsadWriteKey f key v = key ∧ wsadRealKey f key v = none ∧
      wsadPreState f key v = f.del key ∧
      (write_sparse_as_dense f key v).get? key
        = some (HNode.dense (wsadFullData v))) ∧
    ((f.get? key).isSome = false →
      wsadWriteKey f key v = key ∧ wsadRealKey f key v = none ∧
      wsadPreState f key v = f ∧
      (write_sparse_as_dense f key v).get? key
        = some (HNode.dense (wsadFullData v))) ∧
    tempKey ("X") = ("_X") ∧ tempKey ("raw/X") = ("raw/_X") := by
  refine ⟨?_, ?_, ?_, by decide, by decide⟩
  · intro hex hal
    obtain ⟨hwk, hrk, hpre⟩ := wsad_aliased_facts f key v hex hal
    refine ⟨hwk, ?_, ?_⟩
    · rw [write_sparse_as_dense, hrk, hwk, hpre]
      simp only
      rw [get?_del_ne _ _ _ (fun h => hne h.symm), get?_set_self,
        get?_del_ne _ _ _ hne, get?_set_self, Option.getD_some, wsadAfterChunks_full]
    · rw [write_sparse_as_dense, hrk, hwk, hpre]
      simp only
      exact get?_del_self _ (tempKey key)
  · intro hex hal
    have hwk : wsadWriteKey f key v = key := by
      rw [wsadWriteKey, if_pos hex, if_neg (by rw [hal]; exact Bool.false_ne_true)]
    have hrk : wsadRealKey f key v = none := by
      rw [wsadRealKey, if_neg (by rw [hal, Bool.and_false]; exact Bool.false_ne_true)]
    have hpre : wsadPreState f key v = f.del key := by
      rw [wsadPreState, if_pos hex, if_neg (by rw [hal]; exact Bool.false_ne_true)]
    refine ⟨hwk, hrk, hpre, ?_⟩
    rw [write_sparse_as_dense, hrk, hwk, hpre]
    simp only
    rw [get?_set_self, wsadAfterChunks_full]
  · intro hex
    have hwk : wsadWriteKey f key v = key := by
      rw [wsadWriteKey, if_neg (by rw [hex]; exact Bool.false_ne_true)]
    have hrk : wsadRealKey f key v = none := by
      rw [wsadRealKey, if_neg (by rw [hex, Bool.false_and]; exact Bool.false_ne_true)]
    have hpre : wsadPreState f key v = f := by
      rw [wsadPreState, if_neg (by rw [hex]; exact Bool.false_ne_true)]
    refine ⟨hwk, hrk, hpre, ?_⟩
    rw [write_sparse_as_dense, hrk, hwk, hpre]
    simp only
    rw [get?_set_self, wsadAfterChunks_full]

/-- Witness for C3: the aliased, non-aliased and fresh-destination
cases at concrete stores. -/
theorem write_target_selection_witness :
    (wsadWriteKey ⟨("f.h5"), [(("X"), HNode.sparseEnc ⟨1, [[(0, 5)]]⟩)]⟩ ("X")
        (SrcVal.backed ("f.h5") ⟨1, [[(0, 5)]]⟩) = tempKey ("X") ∧
      (write_sparse_as_dense ⟨("f.h5"), [(("X"), HNode.sparseEnc ⟨1, [[(0, 5)]]⟩)]⟩
          ("X") (SrcVal.backed ("f.h5") ⟨1, [[(0, 5)]]⟩)).get? ("X")
        = some (HNode.dense (wsadFullData (SrcVal.backed ("f.h5") ⟨1, [[(0, 5)]]⟩))) ∧
      (write_sparse_as_dense ⟨("f.h5"), [(("X"), HNode.sparseEnc ⟨1, [[(0, 5)]]⟩)]⟩
          ("X") (SrcVal.backed ("f.h5") ⟨1, [[(0, 5)]]⟩)).get? (tempKey ("X")) = none) ∧
    (wsadWriteKey ⟨("f.h5"), [(("X"), HNode.sparseEnc ⟨1, [[(0, 5)]]⟩)]⟩ ("X")
        (SrcVal.mem ⟨1, [[(0, 5)]]⟩) = ("X") ∧
      wsadRealKey ⟨("f.h5"), [(("X"), HNode.sparseEnc ⟨1, [[(0, 5)]]⟩)]⟩ ("X")
        (SrcVal.mem ⟨1, [[(0, 5)]]⟩) = none ∧
      wsadPreState ⟨("f.h5"), [(("X"), HNode.sparseEnc ⟨1, [[(0, 5)]]⟩)]⟩ ("X")
        (SrcVal.mem ⟨1, [[(0, 5)]]⟩)
        = (H5File.mk ("f.h5") [(("X"), HNode.sparseEnc ⟨1, [[(0, 5)]]⟩)]).del ("X") ∧
      (write_sparse_as_dense ⟨("f.h5"), [(("X"), HNode.sparseEnc ⟨1, [[(0, 5)]]⟩)]⟩
          ("X") (SrcVal.mem ⟨1, [[(0, 5)]]⟩)).get? ("X")
        = some (HNode.dense (wsadFullData (SrcVal.mem ⟨1, [[(0, 5)]]⟩)))) ∧
    (wsadWriteKey ⟨("f.h5"), []⟩ ("X") (SrcVal.mem ⟨1, [[(0, 5)]]⟩) = ("X") ∧
      wsadRealKey ⟨("f.h5"), []⟩ ("X") (SrcVal.mem ⟨1, [[(0, 5)]]⟩) = none ∧
      wsadPreState ⟨("f.h5"), []⟩ ("X") (SrcVal.mem ⟨1, [[(0, 5)]]⟩) = ⟨("f.h5"), []⟩ ∧
      (write_sparse_as_dense ⟨("f.h5"), []⟩ ("X")
          (SrcVal.mem ⟨1, [[(0, 5)]]⟩)).get? ("X")
        = some (HNode.dense (wsadFullData (SrcVal.mem ⟨1, [[(0, 5)]]⟩)))) :=
  ⟨(write_target_selection ⟨("f.h5"), [(("X"), HNode.sparseEnc ⟨1, [[(0, 5)]]⟩)]⟩
      ("X") (SrcVal.backed ("f.h5") ⟨1, [[(0, 5)]]⟩) (by decide)).1 (by decide) (by decide),
    (write_target_selection ⟨("f.h5"), [(("X"), HNode.sparseEnc ⟨1, [[(0, 5)]]⟩)]⟩
      ("X") (SrcVal.mem ⟨1, [[(0, 5)]]⟩) (by decide)).2.1 (by decide) (by decide),
    (write_target_selection ⟨("f.h5"), []⟩ ("X") (SrcVal.mem ⟨1, [[(0, 5)]]⟩)
      (by decide)).2.2.1 (by decide)⟩

/-! ## C4: `write_h5ad` override validation -/

theorem mem_replaceFirst (l : List String) (a b t : String) (ht : t ∈ l)
    (hta : t ≠ a) : t ∈ replaceFirst l a b := by
  induction l with
  | nil => exact absurd ht (List.not_mem_nil t)
  | cons x xs IH =>
    rw [replaceFirst]
    rcases List.mem_cons.mp ht with rfl | ht'
    · rw [if_neg (fun hx => hta hx)]
      exact List.mem_cons_self t _
    · by_cases hx : x = a
      · rw [if_pos hx]
        exact List.mem_cons_of_mem b ht'
      · rw [if_neg hx]
        exact List.mem_cons_of_mem x (IH ht')

/-- C4: requesting `raw/X` in `as_dense` when the container has no raw
snapshot raises `ValueError`, and requesting any token outside
`{X, raw/X}` (after the legacy `raw.X` rewrite) raises
`NotImplementedError`; both happen before the file is opened, so an
error result carries no store actions at all. -/
theorem write_h5ad_override_validation :
    (∀ (a : AdataW) (l : List String),
      (∀ t ∈ l, t = ("X") ∨ t = ("raw/X")) → ("raw/X") ∈ l → a.hasRaw = false →
      write_h5ad a none l = .error .valueErr) ∧
    (∀ (a : AdataW) (l : List String) (t : String),
      t ∈ l → t ≠ ("X") → t ≠ ("raw/X") → t ≠ ("raw.X") →
      write_h5ad a none l = .error .notImplErr) := by
  constructor
  · intro a l hvalid hmem hraw
    have hnm : ("raw.X") ∉ l := by
      intro hx
      rcases hvalid _ hx with h | h
      · exact absurd h (by decide)
      · exact absurd h (by decide)
    rw [write_h5ad]
    simp only [if_neg (show ¬((none : Option Bool) = some true) by decide)]
    rw [normalizeAsDense, if_neg hnm]
    rw [if_neg (not_not_intro hvalid), if_pos ⟨hmem, hraw⟩]
  · intro a l t ht htX htR htD
    rw [write_h5ad]
    simp only [if_neg (show ¬((none : Option Bool) = some true) by decide)]
    have hmem : t ∈ normalizeAsDense l := by
      rw [normalizeAsDense]
      by_cases hd : ("raw.X") ∈ l
      · rw [if_pos hd]
        exact mem_replaceFirst l _ _ t ht htD
      · rw [if_neg hd]
        exact ht
    rw [if_pos]
    intro hvalid
    rcases hvalid t hmem with h | h
    · exact htX h
    · exact htR h

/-- Witness for C4: `raw/X` with no raw snapshot, and a bogus token. -/
theorem write_h5ad_override_validation_witness :
    (AdataW.mk false false false false false false false).hasRaw = false ∧
    write_h5ad ⟨false, false, false, false, false, false, false⟩ none [("raw/X")]
      = .error .valueErr ∧
    write_h5ad ⟨false, false, false, false, false, false, false⟩ none [("bogus")]
      = .error .notImplErr :=
  ⟨by decide,
    write_h5ad_override_validation.1 ⟨false, false, false, false, false, false, false⟩
      [("raw/X")] (by decide) (by decide) (by decide),
    write_h5ad_override_validation.2 ⟨false, false, false, false, false, false, false⟩
      [("bogus")] ("bogus") (by decide) (by decide) (by decide) (by decide)⟩

/-! ## C6: root encoding attributes are set only when absent -/

theorem alookup_attrsSetdefault_ne (attrs : List (String × String)) (k v q : String)
    (h : q ≠ k) : alookup (attrsSetdefault attrs k v) q = alookup attrs q := by
  rw [attrsSetdefault]
  by_cases hk : (alookup attrs k).isSome
  · rw [if_pos hk]
  · rw [if_neg hk]
    cases hq : alookup attrs q with
    | some w => exact alookup_append_of_some _ _ _ _ hq
    | none =>
      rw [alookup_append_of_none _ _ _ hq]
      simp only [alookup]
      rw [if_neg (fun he : k = q => h he.symm)]

theorem alookup_attrsSetdefault_present (attrs : List (String × String))
    (k v w : String) (h : alookup attrs k = some w) :
    alookup (attrsSetdefault attrs k v) k = some w := by
  rw [attrsSetdefault, if_pos (by rw [h]; rfl)]
  exact h

theorem alookup_attrsSetdefault_absent (attrs : List (String × String))
    (k v : String) (h : alookup attrs k = none) :
    alookup (attrsSetdefault attrs k v) k = some v := by
  rw [attrsSetdefault, if_neg (by rw [h]; simp)]
  rw [alookup_append_of_none _ _ _ h]
  simp [alookup]

/-- C6: a write pass sets `encoding-type = "anndata"` and
`encoding-version = "0.1.0"` on the root only when absent: an existing
`encoding-version` (or `encoding-type`) value survives a re-save
unchanged, and a missing one is filled with the fixed default. -/
theorem root_encoding_attrs_setdefault :
    (∀ (attrs : List (String × String)) (ver : String),
      alookup attrs ("encoding-version") = some ver →
      alookup (write_h5ad_encoding_attrs attrs) ("encoding-version") = some ver) ∧
    (∀ attrs : List (String × String),
      alookup attrs ("encoding-version") = none →
      alookup (write_h5ad_encoding_attrs attrs) ("encoding-version") = some ("0.1.0")) ∧
    (∀ (attrs : List (String × String)) (ty : String),
      alookup attrs ("encoding-type") = some ty →
      alookup (write_h5ad_encoding_attrs attrs) ("encoding-type") = some ty) := by
  refine ⟨?_, ?_, ?_⟩
  · intro attrs ver h
    rw [write_h5ad_encoding_attrs]
    apply alookup_attrsSetdefault_present
    rw [alookup_attrsSetdefault_ne _ _ _ _ (by decide)]
    exact h
  · intro attrs h
    rw [write_h5ad_encoding_attrs]
    apply alookup_attrsSetdefault_absent
    rw [alookup_attrsSetdefault_ne _ _ _ _ (by decide)]
    exact h
  · intro attrs ty h
    rw [write_h5ad_encoding_attrs]
    rw [alookup_attrsSetdefault_ne _ _ _ _ (by decide)]
    exact alookup_attrsSetdefault_present _ _ _ _ h

/-- Witness for C6: a root that already carries
`encoding-version = "0.2.0"` keeps it; an empty root gets the
defaults. -/
theorem root_encoding_attrs_setdefault_witness :
    alookup [(("encoding-version"), ("0.2.0"))] ("encoding-version")
      = some ("0.2.0") ∧
    alookup (write_h5ad_encoding_attrs [(("encoding-version"), ("0.2.0"))])
      ("encoding-version") = some ("0.2.0") ∧
    alookup ([] : List (String × String)) ("encoding-version") = none ∧
    alookup (write_h5ad_encoding_attrs []) ("encoding-version") = some ("0.1.0") :=
  ⟨by decide,
    root_encoding_attrs_setdefault.1 [(("encoding-version"), ("0.2.0"))] ("0.2.0")
      (by decide),
    by decide,
    root_encoding_attrs_setdefault.2.1 [] (by decide)⟩

/-! ## C8: unsupported target sparse layout -/

/-- C8: requesting a sparse-reinterpretation read with any target
format other than `csr_matrix`/`csc_matrix` fails: `read_h5ad` raises
`NotImplementedError` before any store I/O (the error result carries no
actions, in particular not the file-open), and `read_dense_as_sparse`
itself raises `ValueError` without touching the dataset. -/
theorem unsupported_sparse_fmt_error :
    (∀ toks : List RTok,
      read_h5ad SpFmt.different toks = .error .notImplFmt) ∧
    (∀ (D : DenseMat) (c : Nat),
      read_dense_as_sparse D SpFmt.different c = .error .valueErrFmt) := by
  constructor
  · intro toks
    rw [read_h5ad, if_pos ⟨by decide, by decide⟩]
  · intro D c
    rfl

/-! ## C9: legacy length-1 string dataset unwrapped to a scalar -/

/-- C9: a fixed-length (`np.string_`, pre-variable-length) string
dataset holding exactly one element is read back as the bare scalar
string, not as a one-element array. -/
theorem legacy_scalar_string_unwrap :
    ∀ s : String, read_dataset (DsetVal.bytesArr [s]) = ReadVal.str s := by
  intro s
  rfl

/-! ## C7: backed same-file writes skip the primary matrix -/

/-- C7: writing a backed container back to its own file, when the
primary matrix is not being converted to dense, emits no write for `X`
(neither a dense conversion nor an element write) while all the other
fields are still written. -/
theorem backed_skip_X_write (a : AdataW) (asd : List String)
    (hb : a.isbacked = true) (hsf : a.sameFile = true) (hv : a.isView = false)
    (hall : ∀ t ∈ asd, t = ("raw/X")) (hraw : asd ≠ [] → a.hasRaw = true) :
    ∃ acts, write_h5ad a none asd = .ok acts ∧
      WAct.writeSparseDense ("X") ∉ acts ∧ WAct.writeElemAct ("X") ∉ acts ∧
      WAct.writeElemAct ("obs") ∈ acts ∧ WAct.writeElemAct ("var") ∈ acts ∧
      WAct.writeElemAct ("obsm") ∈ acts ∧ WAct.writeElemAct ("varm") ∈ acts ∧
      WAct.writeElemAct ("obsp") ∈ acts ∧ WAct.writeElemAct ("varp") ∈ acts ∧
      WAct.writeElemAct ("layers") ∈ acts ∧ WAct.writeElemAct ("uns") ∈ acts := by
  have hnorm : normalizeAsDense asd = asd := by
    rw [normalizeAsDense]
    by_cases hd : ("raw.X") ∈ asd
    · exact absurd (hall _ hd) (by decide)
    · rw [if_neg hd]
  have hXnot : ("X") ∉ asd := by
    intro hx
    exact absurd (hall _ hx) (by decide)
  rw [write_h5ad]
  simp only [if_neg (show ¬((none : Option Bool) = some true) by decide)]
  rw [hnorm]
  rw [if_neg (not_not_intro (fun t ht => Or.inr (hall t ht)))]
  rw [if_neg (fun hc => by
    have hne : asd ≠ [] := fun hnil => by
      rw [hnil] at hc
      exact absurd hc.1 (List.not_mem_nil _)
    rw [hraw hne] at hc
    exact absurd hc.2 (by decide))]
  have hXseg : (if a.isbacked = false ∨ a.hasX = true then
      (if ("X") ∈ asd ∧ a.xIsSparse = true then [WAct.writeSparseDense ("X")]
        else if ¬(a.isbacked = true ∧ a.sameFile = true) ∨ a.isView = true then
          [WAct.writeElemAct ("X")]
        else [])
      else []) = [] := by
    by_cases hx : a.isbacked = false ∨ a.hasX = true
    · rw [if_pos hx, if_neg (fun hc => hXnot hc.1),
        if_neg (by rw [hb, hsf, hv]; simp)]
    · rw [if_neg hx]
  refine ⟨_, rfl, ?_⟩
  rw [hXseg]
  by_cases hrs : ("raw/X") ∈ asd ∧ a.rawXIsSparse = true
  · rw [if_pos hrs]
    refine ⟨?_, ?_, ?_, ?_, ?_, ?_, ?_, ?_, ?_, ?_⟩ <;> simp
  · rw [if_neg hrs]
    by_cases hr2 : a.hasRaw = true
    · rw [if_pos hr2]
      refine ⟨?_, ?_, ?_, ?_, ?_, ?_, ?_, ?_, ?_, ?_⟩ <;> simp
    · rw [if_neg hr2]
      refine ⟨?_, ?_, ?_, ?_, ?_, ?_, ?_, ?_, ?_, ?_⟩ <;> simp

/-- Witness for C7: a backed, same-file, non-view container with an
empty `as_dense`. -/
theorem backed_skip_X_write_witness :
    (AdataW.mk true true true true true false true).isbacked = true ∧
    (AdataW.mk true true true true true false true).sameFile = true ∧
    (AdataW.mk true true true true true false true).isView = false ∧
    (∃ acts, write_h5ad ⟨true, true, true, true, true, false, true⟩ none [] = .ok acts ∧
      WAct.writeSparseDense ("X") ∉ acts ∧ WAct.writeElemAct ("X") ∉ acts ∧
      WAct.writeElemAct ("obs") ∈ acts ∧ WAct.writeElemAct ("var") ∈ acts ∧
      WAct.writeElemAct ("obsm") ∈ acts ∧ WAct.writeElemAct ("varm") ∈ acts ∧
      WAct.writeElemAct ("obsp") ∈ acts ∧ WAct.writeElemAct ("varp") ∈ acts ∧
      WAct.writeElemAct ("layers") ∈ acts ∧ WAct.writeElemAct ("uns") ∈ acts) :=
  ⟨by decide, by decide, by decide,
    backed_skip_X_write ⟨true, true, true, true, true, false, true⟩ []
      (by decide) (by decide) (by decide) (by decide) (by decide)⟩

/-! ## C10: legacy dotted raw-matrix spellings -/

theorem replaceFirst_append_not_mem (pre post : List String) (a b : String)
    (h : a ∉ pre) : replaceFirst (pre ++ a :: post) a b = pre ++ b :: post := by
  induction pre with
  | nil =>
    rw [List.nil_append, List.nil_append, replaceFirst, if_pos rfl]
  | cons x xs IH =>
    rw [List.cons_append, replaceFirst,
      if_neg (fun hx : x = a => h (List.mem_cons.mpr (Or.inl hx.symm))),
      List.cons_append, IH (fun hx => h (List.mem_cons_of_mem x hx))]

theorem replaceFirst_all (l : List String) (a b : String) (P : String → Prop)
    (hP : ∀ t ∈ l, t = a ∨ P t) (hc : l.count a ≤ 1) (hPb : P b) :
    ∀ t ∈ replaceFirst l a b, P t := by
  induction l with
  | nil =>
    intro t ht
    exact absurd ht (List.not_mem_nil t)
  | cons x xs IH =>
    intro t ht
    rw [replaceFirst] at ht
    by_cases hx : x = a
    · rw [if_pos hx] at ht
      rcases List.mem_cons.mp ht with rfl | ht'
      · exact hPb
      · rcases hP t (List.mem_cons_of_mem x ht') with hta | hPt
        · exfalso
          have hbeq : (x == a) = true := beq_iff_eq.mpr hx
          rw [List.count_cons, hbeq, if_pos rfl] at hc
          have hzero : xs.count a = 0 := by omega
          exact (List.count_eq_zero.mp hzero) (hta ▸ ht')
        · exact hPt
    · rw [if_neg hx] at ht
      rcases List.mem_cons.mp ht with rfl | ht'
      · rcases hP t (List.mem_cons_self t xs) with hta | hPt
        · exact absurd hta hx
        · exact hPt
      · refine IH (fun u hu => hP u (List.mem_cons_of_mem x hu)) ?_ t ht'
        have hbeq : (x == a) = false := beq_eq_false_iff_ne.mpr hx
        rw [List.count_cons, hbeq, if_neg Bool.false_ne_true] at hc
        omega

/-- C10: both entry points accept the legacy dotted spelling of the
raw-matrix override and normalize it before validation: on write the
first `raw.X` in `as_dense` is rewritten to `raw/X` (and a set
containing only `X`/`raw.X`/`raw/X` tokens passes validation when a raw
snapshot exists); on read, `"raw.X"` and the pair `("raw", "X")` both
normalize to `raw/X` with no token error. -/
theorem legacy_dotted_raw_token :
    (∀ pre post : List String, ("raw.X") ∉ pre →
      normalizeAsDense (pre ++ ("raw.X") :: post) = pre ++ ("raw/X") :: post) ∧
    (∀ (a : AdataW) (l : List String), a.hasRaw = true →
      (∀ t ∈ l, t = ("X") ∨ t = ("raw.X") ∨ t = ("raw/X")) →
      l.count ("raw.X") ≤ 1 →
      ∃ acts, write_h5ad a none l = .ok acts) ∧
    (∀ (t : RTok) (rest : List RTok),
      t = RTok.pr ("raw") ("X") ∨ t = RTok.s ("raw.X") →
      normalizeAsSparse (t :: rest)
        = (normalizeAsSparse rest).map (fun vs => ("raw/X") :: vs)) ∧
    normSparseTok (RTok.s ("raw.X")) = .ok ("raw/X") ∧
    normSparseTok (RTok.pr ("raw") ("X")) = .ok ("raw/X") := by
  refine ⟨?_, ?_, ?_, rfl, rfl⟩
  · intro pre post hnm
    rw [normalizeAsDense,
      if_pos (List.mem_append.mpr (Or.inr (List.mem_cons_self _ _))),
      replaceFirst_append_not_mem pre post _ _ hnm]
  · intro a l hraw hall hcount
    have hvalid : ∀ t ∈ normalizeAsDense l, t = ("X") ∨ t = ("raw/X") := by
      rw [normalizeAsDense]
      by_cases hd : ("raw.X") ∈ l
      · rw [if_pos hd]
        refine replaceFirst_all l _ _ _ ?_ hcount (Or.inr rfl)
        intro t ht
        rcases hall t ht with h | h | h
        · exact Or.inr (Or.inl h)
        · exact Or.inl h
        · exact Or.inr (Or.inr h)
      · rw [if_neg hd]
        intro t ht
        rcases hall t ht with h | h | h
        · exact Or.inl h
        · exact absurd (h ▸ ht) hd
        · exact Or.inr h
    rw [write_h5ad]
    simp only [if_neg (show ¬((none : Option Bool) = some true) by decide)]
    rw [if_neg (not_not_intro hvalid)]
    rw [if_neg (fun hc => by rw [hraw] at hc; exact absurd hc.2 (by decide))]
    exact ⟨_, rfl⟩
  · intro t rest ht
    have htok : normSparseTok t = .ok ("raw/X") := by
      rcases ht with rfl | rfl
      · rfl
      · rfl
    cases hres : normalizeAsSparse rest with
    | error e =>
      simp only [normalizeAsSparse, htok, hres, Except.map]
      rfl
    | ok vs =>
      simp only [normalizeAsSparse, htok, hres, Except.map]
      rfl

/-- Witness for C10: the dotted spelling normalizes and passes
validation on both entry points. -/
theorem legacy_dotted_raw_token_witness :
    normalizeAsDense [("raw.X")] = [("raw/X")] ∧
    (∃ acts, write_h5ad ⟨true, false, false, false, false, false, false⟩ none
      [("raw.X")] = .ok acts) ∧
    normalizeAsSparse [RTok.s ("raw.X"), RTok.pr ("raw") ("X")]
      = (normalizeAsSparse [RTok.pr ("raw") ("X")]).map
          (fun vs => ("raw/X") :: vs) :=
  ⟨legacy_dotted_raw_token.1 [] [] (by decide),
    legacy_dotted_raw_token.2.1 ⟨true, false, false, false, false, false, false⟩
      [("raw.X")] (by decide) (by decide) (by decide),
    legacy_dotted_raw_token.2.2.1 (RTok.s ("raw.X")) [RTok.pr ("raw") ("X")]
      (Or.inr rfl)⟩

end Anndata
